import Mathlib

/-!
Shallow embedding of the `da.rs` Gaussian core (`src/gaussian.rs`).

The source represents a Gaussian either in moment form `M` (mean `center`,
covariance `cov`) or in natural form `E` (information vector `ab`, precision
matrix `prec`), with a tagged union `Gaussian` over the two, an upward
projection wrapper `PGaussian`, fusion via the `Mul`/`MulAssign` operators,
and conversions that invert a symmetric matrix via `ndarray-linalg`'s
`invh`/`solveh`.

Modelling choices:
* the scalar type `R` (`f64` in `types.rs`) is embedded as the exact
  rationals, so floating-tolerance statements become exact equalities;
* `ndarray`'s runtime-dimensioned arrays are embedded as Mathlib vectors and
  matrices over `Fin`-indexed types, with a sigma type `DGaussian` for the
  places where the source lets two values of different runtime dimension
  meet (the fusion operators), mirroring where `ndarray` itself either
  broadcasts a size-1 rhs to the lhs's shape or raises a shape error;
* the LAPACK-backed symmetric inversion `invh` and solve `solveh` are
  embedded as exact matrix inversion guarded by a determinant test: they
  fail with `SingularMatrix` exactly on singular input;
* a panic in the source (`expect`, shape errors) is embedded as an
  `Except.error` result.
-/

namespace DaRs

open Matrix

/-- The scalar type `R` of `types.rs` (`f64`), modelled as exact rationals. -/
abbrev R : Type := ℚ

/-- A length-`n` vector (`Array1<R>`). -/
abbrev Vec (n : ℕ) : Type := Fin n → R

/-- An `r × c` matrix (`Array2<R>`). -/
abbrev Mat (r c : ℕ) : Type := Matrix (Fin r) (Fin c) R

/-- The two failure modes of the core: a failed symmetric inversion/solve,
and disagreeing array shapes. -/
inductive Err : Type
  | SingularMatrix
  | DimensionMismatch
deriving DecidableEq

/-- `ndarray-linalg`'s `invh`: inverse of a (symmetric) matrix, failing on
singular input.  Embedded as adjugate-based exact inversion guarded by a
determinant test. -/
def invh {n : ℕ} (A : Mat n n) : Except Err (Mat n n) :=
  if A.det = 0 then .error .SingularMatrix
  else .ok ((A.det)⁻¹ • A.adjugate)

/-- `ndarray-linalg`'s `solveh`: solve `A·x = b` for symmetric `A`, failing
on singular input. -/
def solveh {n : ℕ} (A : Mat n n) (b : Vec n) : Except Err (Vec n) :=
  if A.det = 0 then .error .SingularMatrix
  else .ok (((A.det)⁻¹ • A.adjugate) *ᵥ b)

/-- Moment form: `pub struct M { pub center: Array1<R>, pub cov: Array2<R> }`,
restricted to the dimension-consistent values the algebra operates on. -/
structure M (n : ℕ) where
  center : Vec n
  cov : Mat n n

/-- Natural form: `pub struct E { pub ab: Array1<R>, pub prec: Array2<R> }`,
restricted to the dimension-consistent values the algebra operates on. -/
structure E (n : ℕ) where
  ab : Vec n
  prec : Mat n n

/-- `M::size`: `self.center.len()`. -/
def M.size {n : ℕ} (_ : M n) : ℕ := n

/-- `E::size`: `self.ab.len()`. -/
def E.size {n : ℕ} (_ : E n) : ℕ := n

/-- `M::as_e`: `prec = cov.invh()`, `ab = prec.dot(center)`.  The source
panics when `cov` is singular; here that is the `error` branch. -/
def M.as_e {n : ℕ} (m : M n) : Except Err (E n) :=
  match invh m.cov with
  | .error err => .error err
  | .ok prec => .ok ⟨prec *ᵥ m.center, prec⟩

/-- `E::as_m`: `cov = prec.invh()`, `center = cov.dot(ab)`. -/
def E.as_m {n : ℕ} (e : E n) : Except Err (M n) :=
  match invh e.prec with
  | .error err => .error err
  | .ok cov => .ok ⟨cov *ᵥ e.ab, cov⟩

/-- The tagged union `pub enum Gaussian { M(M), E(E) }`. -/
inductive Gaussian (n : ℕ) : Type
  | M (m : DaRs.M n)
  | E (e : DaRs.E n)

/-- `Gaussian::from_mean`: wrap a mean/covariance pair as the `M` variant,
with no conversion. -/
def Gaussian.from_mean {n : ℕ} (center : Vec n) (cov : Mat n n) : Gaussian n :=
  .M ⟨center, cov⟩

/-- `Gaussian::size`: delegate to the active variant. -/
def Gaussian.size {n : ℕ} : Gaussian n → ℕ
  | .M m => m.size
  | .E e => e.size

/-- `Gaussian::center`: the `M` variant answers directly; the `E` variant
recomputes via `prec.solveh(ab)`. -/
def Gaussian.center {n : ℕ} : Gaussian n → Except Err (Vec n)
  | .M m => .ok m.center
  | .E e => solveh e.prec e.ab

/-- `Gaussian::cov`: the `M` variant answers directly; the `E` variant
recomputes via `prec.invh()`. -/
def Gaussian.cov {n : ℕ} : Gaussian n → Except Err (Mat n n)
  | .M m => .ok m.cov
  | .E e => invh e.prec

/-- `impl From<Gaussian> for E`: convert the active form to natural form. -/
def Gaussian.toE {n : ℕ} : Gaussian n → Except Err (DaRs.E n)
  | .M m => m.as_e
  | .E e => .ok e

/-- `impl From<Gaussian> for M`: convert the active form to moment form. -/
def Gaussian.toM {n : ℕ} : Gaussian n → Except Err (DaRs.M n)
  | .M m => .ok m
  | .E e => e.as_m

/-- `ndarray`'s elementwise vector addition (`+`/`+=`): when the shapes
disagree, the rhs is broadcast to the shape of the lhs, which for
one-dimensional arrays is possible exactly when the rhs has length 1; an
un-broadcastable rhs panics with a shape error. -/
def addBcastV {n m : ℕ} (a : Vec n) (b : Vec m) : Except Err (Vec n) :=
  if h : m = n then .ok (a + h ▸ b)
  else if h1 : m = 1 then .ok (fun i => a i + (h1 ▸ b) 0)
  else .error .DimensionMismatch

/-- `ndarray`'s elementwise addition on square matrices (`+`/`+=`): a rhs of
a different dimension broadcasts to the lhs's shape exactly when both its
axes have length 1. -/
def addBcastM {n m : ℕ} (A : Mat n n) (B : Mat m m) : Except Err (Mat n n) :=
  if h : m = n then .ok (A + h ▸ B)
  else if h1 : m = 1 then .ok (Matrix.of fun i j => A i j + (h1 ▸ B) 0 0)
  else .error .DimensionMismatch

/-- `impl MulAssign<&E> for E`: `self.ab += &rhs.ab; self.prec += &rhs.prec;`
with `ndarray`'s broadcasting rules for each addition.  The two other
`E`-level operator impls perform the same arithmetic: `Mul<&E> for E` is
`self *= rhs; self`, and `Mul<&E> for &E` computes the same two elementwise
sums into fresh storage. -/
def E.mulAssign {n m : ℕ} (a : E n) (b : E m) : Except Err (E n) :=
  match addBcastV a.ab b.ab with
  | .error err => .error err
  | .ok ab =>
    match addBcastM a.prec b.prec with
    | .error err => .error err
    | .ok prec => .ok ⟨ab, prec⟩

/-- `pub struct PGaussian { pub projection: Array2<R>, pub gaussian: Gaussian }`;
`PGaussian::new` asserts `projection.rows() == gaussian.size()`, which here is
the shared row dimension `r`. -/
structure PGaussian (r c : ℕ) where
  projection : Mat r c
  gaussian : Gaussian r

/-- `PGaussian::size`: `self.projection.cols()`. -/
def PGaussian.size {r c : ℕ} (_ : PGaussian r c) : ℕ := c

/-- `PGaussian::reduction`: convert the held Gaussian to natural form, then
`ab = projectionᵀ·ab`, `prec = projectionᵀ·prec·projection`, wrapped as the
`E` variant.  No inversion happens here. -/
def PGaussian.reduction {r c : ℕ} (p : PGaussian r c) : Except Err (Gaussian c) :=
  match p.gaussian.toE with
  | .error err => .error err
  | .ok e => .ok (.E ⟨p.projectionᵀ *ᵥ e.ab, p.projectionᵀ * e.prec * p.projection⟩)

/-- A Gaussian of arbitrary runtime dimension, as `ndarray` stores it. -/
abbrev DGaussian : Type := Σ n : ℕ, Gaussian n

/-- `Gaussian::size` on a runtime-dimensioned Gaussian. -/
def DGaussian.size : DGaussian → ℕ
  | ⟨_, g⟩ => g.size

/-- `impl Mul<&Gaussian> for Gaussian` (fusion): first convert `self` to the
`E` form, then read `rhs` through its `E` form (`m.as_e()` for the `M`
variant), then add componentwise via the `E`-level operator.  The operand
dimensions are only examined where `ndarray`'s elementwise additions
broadcast or reject the rhs, namely after both conversions. -/
def DGaussian.mul : DGaussian → DGaussian → Except Err DGaussian
  | ⟨n, a⟩, ⟨m, b⟩ =>
    match a.toE with
    | .error err => .error err
    | .ok ea =>
      match b.toE with
      | .error err => .error err
      | .ok eb =>
        match ea.mulAssign eb with
        | .error err => .error err
        | .ok e2 => .ok ⟨n, .E e2⟩

/-- The placeholder the source's `MulAssign` swaps into `self` before
computing: `Gaussian::E(E { ab: array![0.0], prec: array![[0.0]] })`. -/
def DGaussian.dummy : DGaussian := ⟨1, .E ⟨0, 0⟩⟩

/-- `impl MulAssign<&Gaussian> for Gaussian` (in-place fusion): the source
replaces `self` with the one-dimensional placeholder, converts the old value
and `rhs` to `E` form, adds, and writes the sum back into `self`.  The
result is the final state of `self` paired with the outcome; a panic along
the way (embedded as the `error` outcome) leaves `self` holding the
placeholder. -/
def DGaussian.mulAssign : DGaussian → DGaussian → DGaussian × Except Err Unit
  | ⟨n, a⟩, ⟨m, b⟩ =>
    match a.toE with
    | .error err => (dummy, .error err)
    | .ok ea =>
      match b.toE with
      | .error err => (dummy, .error err)
      | .ok eb =>
        match ea.mulAssign eb with
        | .error err => (dummy, .error err)
        | .ok e2 => (⟨n, .E e2⟩, .ok ())

/-- The `M` struct exactly as declared in the source: two independent public
fields, with no invariant tying the vector's length to the matrix dimension. -/
structure MRaw where
  n : ℕ
  k : ℕ
  center : Vec n
  cov : Mat k k

/-- `M::size` on the raw struct: `self.center.len()`, with no consistency
check against `cov`. -/
def MRaw.size (m : MRaw) : ℕ := m.n

/-- The `E` struct exactly as declared in the source: two independent public
fields. -/
structure ERaw where
  n : ℕ
  k : ℕ
  ab : Vec n
  prec : Mat k k

/-- `E::size` on the raw struct: `self.ab.len()`, with no consistency check
against `prec`. -/
def ERaw.size (e : ERaw) : ℕ := e.n

/-! ### Helper lemmas about the embedded linear-algebra kernel -/

theorem invh_singular {n : ℕ} {A : Mat n n} (h : A.det = 0) :
    invh A = .error .SingularMatrix := by
  simp [invh, h]

theorem invh_eq_inv {n : ℕ} {A : Mat n n} (h : A.det ≠ 0) :
    invh A = .ok A⁻¹ := by
  rw [invh, if_neg h, Matrix.inv_def, Ring.inverse_eq_inv']

theorem solveh_singular {n : ℕ} {A : Mat n n} (b : Vec n) (h : A.det = 0) :
    solveh A b = .error .SingularMatrix := by
  simp [solveh, h]

theorem solveh_eq_inv {n : ℕ} {A : Mat n n} (b : Vec n) (h : A.det ≠ 0) :
    solveh A b = .ok (A⁻¹ *ᵥ b) := by
  rw [solveh, if_neg h, Matrix.inv_def, Ring.inverse_eq_inv']

theorem det_inv_ne_zero {n : ℕ} {A : Mat n n} (h : A.det ≠ 0) :
    (A⁻¹).det ≠ 0 := by
  rw [Matrix.det_nonsing_inv, Ring.inverse_eq_inv]
  exact inv_ne_zero h

/-- Over the rationals, a positive-definite matrix has nonzero determinant
(it maps no nonzero vector to zero). -/
theorem posDef_det_ne_zero {n : ℕ} {A : Mat n n} (hA : A.PosDef) :
    A.det ≠ 0 := by
  intro h
  obtain ⟨v, hv, hAv⟩ := Matrix.exists_mulVec_eq_zero_iff.mpr h
  have h2 := hA.2 v hv
  rw [hAv] at h2
  simp at h2

theorem toE_from_mean {n : ℕ} (v : Vec n) {S : Mat n n} (h : S.det ≠ 0) :
    (Gaussian.from_mean v S).toE = .ok ⟨S⁻¹ *ᵥ v, S⁻¹⟩ := by
  simp [Gaussian.from_mean, Gaussian.toE, M.as_e, invh_eq_inv h]

theorem toE_from_mean_one {n : ℕ} (v : Vec n) :
    (Gaussian.from_mean v (1 : Mat n n)).toE = .ok ⟨v, 1⟩ := by
  rw [toE_from_mean v (by simp)]
  simp [inv_one, Matrix.one_mulVec]

/-- The elementwise vector addition at equal lengths is the plain sum. -/
theorem addBcastV_same {n : ℕ} (a b : Vec n) : addBcastV a b = .ok (a + b) := by
  simp [addBcastV]

/-- The elementwise matrix addition at equal dimensions is the plain sum. -/
theorem addBcastM_same {n : ℕ} (A B : Mat n n) : addBcastM A B = .ok (A + B) := by
  simp [addBcastM]

/-- A length-1 rhs vector broadcasts: the rhs's single entry is added to
every entry of the lhs. -/
theorem addBcastV_one {n : ℕ} (hn : (1 : ℕ) ≠ n) (a : Vec n) (b : Vec 1) :
    addBcastV a b = .ok (fun i => a i + b 0) := by
  unfold addBcastV
  rw [dif_neg hn, dif_pos rfl]

/-- A 1-by-1 rhs matrix broadcasts: its single entry is added to every entry
of the lhs. -/
theorem addBcastM_one {n : ℕ} (hn : (1 : ℕ) ≠ n) (A : Mat n n) (B : Mat 1 1) :
    addBcastM A B = .ok (Matrix.of fun i j => A i j + B 0 0) := by
  unfold addBcastM
  rw [dif_neg hn, dif_pos rfl]

/-- A rhs whose size is neither the lhs's size nor 1 cannot be broadcast:
the addition raises the shape error. -/
theorem addBcastV_mismatch {n m : ℕ} (hnm : m ≠ n) (hm1 : m ≠ 1)
    (a : Vec n) (b : Vec m) :
    addBcastV a b = .error .DimensionMismatch := by
  unfold addBcastV
  rw [dif_neg hnm, dif_neg hm1]

/-- `*=` on natural forms of equal dimension: componentwise sums. -/
theorem mulAssignE_same {n : ℕ} (a b : E n) :
    a.mulAssign b = .ok ⟨a.ab + b.ab, a.prec + b.prec⟩ := by
  simp [E.mulAssign, addBcastV_same, addBcastM_same]

/-- `*=` with a 1-dimensional rhs natural form: the rhs broadcasts into the
lhs's shape. -/
theorem mulAssignE_bcast {n : ℕ} (hn : (1 : ℕ) ≠ n) (a : E n) (b : E 1) :
    a.mulAssign b =
      .ok ⟨fun i => a.ab i + b.ab 0,
        Matrix.of fun i j => a.prec i j + b.prec 0 0⟩ := by
  simp [E.mulAssign, addBcastV_one hn, addBcastM_one hn]

/-- Fusion of two runtime Gaussians of the same dimension whose conversions
succeed: the result is the `E` variant holding the componentwise sums. -/
theorem mul_ok {n : ℕ} {a b : Gaussian n} {ea eb : E n}
    (ha : a.toE = .ok ea) (hb : b.toE = .ok eb) :
    DGaussian.mul ⟨n, a⟩ ⟨n, b⟩ = .ok ⟨n, .E ⟨ea.ab + eb.ab, ea.prec + eb.prec⟩⟩ := by
  simp [DGaussian.mul, ha, hb, mulAssignE_same]

/-- Fusing a higher-dimensional lhs with a 1-dimensional rhs silently
succeeds: the rhs's natural parameters are broadcast to the lhs's shape. -/
theorem mul_bcast {n : ℕ} (hn : (1 : ℕ) ≠ n) {a : Gaussian n} {b : Gaussian 1}
    {ea : E n} {eb : E 1} (ha : a.toE = .ok ea) (hb : b.toE = .ok eb) :
    DGaussian.mul ⟨n, a⟩ ⟨1, b⟩ =
      .ok ⟨n, .E ⟨fun i => ea.ab i + eb.ab 0,
        Matrix.of fun i j => ea.prec i j + eb.prec 0 0⟩⟩ := by
  simp [DGaussian.mul, ha, hb, mulAssignE_bcast hn]

/-- A congruence `Pᵀ·A·P` through a wide matrix (more columns than rows) is
always singular: its rank is at most the row count. -/
theorem det_conj_zero {r c : ℕ} (hrc : r < c) (A : Mat r r) (P : Mat r c) :
    (Pᵀ * A * P).det = 0 := by
  by_contra hd
  have hu : IsUnit (Pᵀ * A * P) :=
    (Matrix.isUnit_iff_isUnit_det _).mpr (isUnit_iff_ne_zero.mpr hd)
  have h1 : (Pᵀ * A * P).rank = c := by
    have h := Matrix.rank_of_isUnit _ hu
    simpa using h
  have h2 : (Pᵀ * A * P).rank ≤ r :=
    le_trans (Matrix.rank_mul_le_left _ _)
      (le_trans (Matrix.rank_mul_le_left _ _) (Matrix.rank_le_width _))
  omega

/-! ### Claims -/

/-- C1: for two equal-size Gaussians whose active forms convert to natural
form, fusion (the `Mul` operator) returns a Gaussian in the `E` (natural)
variant whose information vector is the sum of the operands' natural-form
information vectors and whose precision matrix is the sum of their precision
matrices; the result is not converted back to moment form. -/
theorem C1_fuse_sums_natural_parameters {n : ℕ} (a b : Gaussian n) (ea eb : E n)
    (ha : a.toE = .ok ea) (hb : b.toE = .ok eb) :
    DGaussian.mul ⟨n, a⟩ ⟨n, b⟩ = .ok ⟨n, .E ⟨ea.ab + eb.ab, ea.prec + eb.prec⟩⟩ :=
  mul_ok ha hb

/-- Witness for C1 at two copies of the 2-dimensional standard Gaussian with
mean `[1, 0]` and identity covariance. -/
theorem C1_fuse_sums_natural_parameters_witness :
    (Gaussian.from_mean ![(1 : R), 0] 1).toE = .ok ⟨![1, 0], 1⟩ ∧
    DGaussian.mul ⟨2, Gaussian.from_mean ![(1 : R), 0] 1⟩
        ⟨2, Gaussian.from_mean ![(1 : R), 0] 1⟩ =
      .ok ⟨2, .E ⟨![1, 0] + ![1, 0], (1 : Mat 2 2) + 1⟩⟩ :=
  ⟨toE_from_mean_one _,
   C1_fuse_sums_natural_parameters _ _ _ _ (toE_from_mean_one _) (toE_from_mean_one _)⟩

/-- C2: converting a moment form with positive-definite covariance to natural
form and back returns it unchanged, and symmetrically for a natural form
with positive-definite precision. -/
theorem C2_roundtrip_conversions {n : ℕ} (m : M n) (e : E n)
    (hm : m.cov.PosDef) (he : e.prec.PosDef) :
    m.as_e.bind E.as_m = .ok m ∧ e.as_m.bind M.as_e = .ok e := by
  obtain ⟨v, S⟩ := m
  obtain ⟨w, P⟩ := e
  have hS : S.det ≠ 0 := posDef_det_ne_zero hm
  have hP : P.det ≠ 0 := posDef_det_ne_zero he
  constructor
  · simp only [M.as_e, invh_eq_inv hS]
    simp only [Except.bind, E.as_m, invh_eq_inv (det_inv_ne_zero hS)]
    rw [Matrix.nonsing_inv_nonsing_inv S (isUnit_iff_ne_zero.mpr hS),
      Matrix.mulVec_mulVec, Matrix.mul_nonsing_inv S (isUnit_iff_ne_zero.mpr hS),
      Matrix.one_mulVec]
  · simp only [E.as_m, invh_eq_inv hP]
    simp only [Except.bind, M.as_e, invh_eq_inv (det_inv_ne_zero hP)]
    rw [Matrix.nonsing_inv_nonsing_inv P (isUnit_iff_ne_zero.mpr hP),
      Matrix.mulVec_mulVec, Matrix.mul_nonsing_inv P (isUnit_iff_ne_zero.mpr hP),
      Matrix.one_mulVec]

/-- Witness for C2 at a moment form and a natural form with identity
matrices. -/
theorem C2_roundtrip_conversions_witness :
    ((⟨![1, 0], 1⟩ : M 2).cov.PosDef ∧ (⟨![2, 3], 1⟩ : E 2).prec.PosDef) ∧
    (⟨![1, 0], 1⟩ : M 2).as_e.bind E.as_m = .ok ⟨![1, 0], 1⟩ ∧
    (⟨![2, 3], 1⟩ : E 2).as_m.bind M.as_e = .ok ⟨![2, 3], 1⟩ :=
  ⟨⟨Matrix.PosDef.one, Matrix.PosDef.one⟩,
   C2_roundtrip_conversions ⟨![1, 0], 1⟩ ⟨![2, 3], 1⟩ Matrix.PosDef.one Matrix.PosDef.one⟩

/-- C3: fusing two Gaussians with the same mean and the same positive-definite
covariance yields a Gaussian whose center is that mean and whose covariance
is half the original covariance. -/
theorem C3_fuse_identical {n : ℕ} (mu : Vec n) (S : Mat n n) (hS : S.PosDef) :
    ∃ e2 : E n,
      DGaussian.mul ⟨n, Gaussian.from_mean mu S⟩ ⟨n, Gaussian.from_mean mu S⟩ =
        .ok ⟨n, .E e2⟩ ∧
      (Gaussian.E e2).center = .ok mu ∧
      (Gaussian.E e2).cov = .ok ((2 : R)⁻¹ • S) := by
  have hS0 : S.det ≠ 0 := posDef_det_ne_zero hS
  have hSu : IsUnit S.det := isUnit_iff_ne_zero.mpr hS0
  have h2 : S⁻¹ + S⁻¹ = (2 : R) • S⁻¹ := (two_smul R S⁻¹).symm
  have hdet : (S⁻¹ + S⁻¹).det ≠ 0 := by
    rw [h2, Matrix.det_smul]
    exact mul_ne_zero (pow_ne_zero _ two_ne_zero) (det_inv_ne_zero hS0)
  have hdu : IsUnit (S⁻¹ + S⁻¹).det := isUnit_iff_ne_zero.mpr hdet
  refine ⟨⟨S⁻¹ *ᵥ mu + S⁻¹ *ᵥ mu, S⁻¹ + S⁻¹⟩, ?_, ?_, ?_⟩
  · exact mul_ok (toE_from_mean mu hS0) (toE_from_mean mu hS0)
  · simp only [Gaussian.center]
    rw [solveh_eq_inv _ hdet, ← Matrix.add_mulVec, Matrix.mulVec_mulVec,
      Matrix.nonsing_inv_mul _ hdu, Matrix.one_mulVec]
  · simp only [Gaussian.cov]
    rw [invh_eq_inv hdet]
    have hhalf : (S⁻¹ + S⁻¹)⁻¹ = (2 : R)⁻¹ • S := by
      apply Matrix.inv_eq_right_inv
      rw [h2, smul_mul_assoc, mul_smul_comm, Matrix.nonsing_inv_mul S hSu,
        smul_smul]
      norm_num
    rw [hhalf]

/-- Witness for C3 at the concrete case from the claim: mean `[1, 0]`,
covariance the 2-by-2 identity; the fused result has mean `[1, 0]` and
covariance half the identity. -/
theorem C3_fuse_identical_witness :
    (1 : Mat 2 2).PosDef ∧
    (∃ e2 : E 2,
      DGaussian.mul ⟨2, Gaussian.from_mean ![(1 : R), 0] 1⟩
          ⟨2, Gaussian.from_mean ![(1 : R), 0] 1⟩ = .ok ⟨2, .E e2⟩ ∧
      (Gaussian.E e2).center = .ok ![1, 0] ∧
      (Gaussian.E e2).cov = .ok ((2 : R)⁻¹ • 1)) :=
  ⟨Matrix.PosDef.one, C3_fuse_identical ![1, 0] 1 Matrix.PosDef.one⟩

/-- C4: reducing through a projection with more columns than rows completes
(when the held Gaussian's active form converts), but the reduced precision
matrix is singular, so any subsequent `center` or `cov` request on the
returned Gaussian fails with `SingularMatrix`. -/
theorem C4_upward_projection_singular {r c : ℕ} (pg : PGaussian r c) (e : E r)
    (hrc : r < c) (h : pg.gaussian.toE = .ok e) :
    ∃ e2 : E c,
      pg.reduction = .ok (.E e2) ∧
      (Gaussian.E e2).center = .error .SingularMatrix ∧
      (Gaussian.E e2).cov = .error .SingularMatrix := by
  have hd : (pg.projectionᵀ * e.prec * pg.projection).det = 0 :=
    det_conj_zero hrc e.prec pg.projection
  refine ⟨⟨pg.projectionᵀ *ᵥ e.ab, pg.projectionᵀ * e.prec * pg.projection⟩, ?_, ?_, ?_⟩
  · simp [PGaussian.reduction, h]
  · simp only [Gaussian.center]
    exact solveh_singular _ hd
  · simp only [Gaussian.cov]
    exact invh_singular hd

/-- Witness for C4 at the test's 2-dimensional Gaussian read through a 2-by-3
projection. -/
theorem C4_upward_projection_singular_witness :
    (2 < 3) ∧
    ((⟨Matrix.of ![![(1 : R), 0, 0], ![0, 1, 0]],
        Gaussian.from_mean ![(1 : R), 0] 1⟩ : PGaussian 2 3).gaussian.toE =
      .ok ⟨![1, 0], 1⟩) ∧
    (∃ e2 : E 3,
      (⟨Matrix.of ![![(1 : R), 0, 0], ![0, 1, 0]],
          Gaussian.from_mean ![(1 : R), 0] 1⟩ : PGaussian 2 3).reduction =
        .ok (.E e2) ∧
      (Gaussian.E e2).center = .error .SingularMatrix ∧
      (Gaussian.E e2).cov = .error .SingularMatrix) :=
  ⟨by decide, toE_from_mean_one _,
   C4_upward_projection_singular _ _ (by decide) (toE_from_mean_one _)⟩

/-- C5 counterexample: fusing Gaussians of differing `size` neither always
raises `DimensionMismatch` nor detects the mismatch before numeric work.
First input pair: a 2-dimensional lhs fused with a 1-dimensional rhs
succeeds silently — ndarray broadcasts the rhs's natural parameters to the
lhs's shape (here `[1,0]` with identity covariance absorbs `[3]` with 1-by-1
identity covariance, giving information vector `[4,3]` and precision
`[[2,1],[1,2]]`).  Second input pair: a 1-dimensional lhs with singular
covariance fused with a 2-dimensional rhs fails with `SingularMatrix`,
because the lhs is converted (inverting its covariance) before any shape
comparison. -/
theorem C5_counterexample :
    (DGaussian.size ⟨2, Gaussian.from_mean ![(1 : R), 0] 1⟩ ≠
        DGaussian.size ⟨1, Gaussian.from_mean ![(3 : R)] 1⟩ ∧
      DGaussian.mul ⟨2, Gaussian.from_mean ![(1 : R), 0] 1⟩
          ⟨1, Gaussian.from_mean ![(3 : R)] 1⟩ =
        .ok ⟨2, .E ⟨![4, 3], Matrix.of ![![2, 1], ![1, 2]]⟩⟩) ∧
    (DGaussian.size ⟨1, .M ⟨![2], 0⟩⟩ ≠ DGaussian.size ⟨2, .M ⟨![0, 0], 1⟩⟩ ∧
      DGaussian.mul ⟨1, .M ⟨![2], 0⟩⟩ ⟨2, .M ⟨![0, 0], 1⟩⟩ =
        .error .SingularMatrix) := by
  constructor
  · refine ⟨by decide, ?_⟩
    rw [mul_bcast (by decide) (toE_from_mean_one ![(1 : R), 0])
      (toE_from_mean_one ![(3 : R)])]
    have hab : (fun i => ![(1 : R), 0] i + ![(3 : R)] 0) = ![(4 : R), 3] := by
      funext i
      fin_cases i <;> norm_num
    have hp : (Matrix.of fun i j => (1 : Mat 2 2) i j + (1 : Mat 1 1) 0 0) =
        Matrix.of ![![(2 : R), 1], ![1, 2]] := by
      ext i j
      fin_cases i <;> fin_cases j <;> simp [Matrix.one_apply] <;> norm_num
    rw [hab, hp]
  · refine ⟨by decide, ?_⟩
    have h0 : (0 : Mat 1 1).det = 0 := by simp [Matrix.det_fin_one]
    simp [DGaussian.mul, Gaussian.toE, M.as_e, invh_singular h0]

/-- C5 as amended: the operand sizes of a fusion are never compared before
numeric work; they are examined only by ndarray's elementwise additions,
after both operands have been converted to natural form.  There, a
1-dimensional rhs is silently broadcast to the lhs's shape and fusion
succeeds despite the size mismatch; a mismatched rhs of any other size
raises `DimensionMismatch`. -/
theorem C5_mismatch_broadcast_or_error {n m : ℕ} (a : Gaussian n)
    (b : Gaussian m) (ea : E n) (eb : E m) (hnm : m ≠ n)
    (ha : a.toE = .ok ea) (hb : b.toE = .ok eb) :
    (m = 1 → ∃ e2 : E n, DGaussian.mul ⟨n, a⟩ ⟨m, b⟩ = .ok ⟨n, .E e2⟩) ∧
    (m ≠ 1 → DGaussian.mul ⟨n, a⟩ ⟨m, b⟩ = .error .DimensionMismatch) := by
  constructor
  · intro h1
    subst h1
    exact ⟨_, mul_bcast hnm ha hb⟩
  · intro hm1
    simp [DGaussian.mul, ha, hb, E.mulAssign, addBcastV_mismatch hnm hm1]

/-- Witness for the amended C5 at a 2-dimensional lhs and a 3-dimensional
rhs, exercising the un-broadcastable branch. -/
theorem C5_mismatch_broadcast_or_error_witness :
    ((3 : ℕ) ≠ 2) ∧
    ((3 = 1 → ∃ e2 : E 2,
        DGaussian.mul ⟨2, Gaussian.from_mean ![(1 : R), 0] 1⟩
            ⟨3, Gaussian.from_mean ![(1 : R), 2, 3] 1⟩ = .ok ⟨2, .E e2⟩) ∧
      (3 ≠ 1 →
        DGaussian.mul ⟨2, Gaussian.from_mean ![(1 : R), 0] 1⟩
            ⟨3, Gaussian.from_mean ![(1 : R), 2, 3] 1⟩ =
          .error .DimensionMismatch)) :=
  ⟨by decide,
   C5_mismatch_broadcast_or_error _ _ _ _ (by decide)
     (toE_from_mean_one _) (toE_from_mean_one _)⟩

/-- C6 counterexample: when the receiver's conversion to natural form fails
(singular covariance), the in-place fusion leaves the receiver holding the
1-dimensional placeholder, which differs from its original state — the
update is not atomic on error. -/
theorem C6_counterexample :
    DGaussian.mulAssign ⟨1, .M ⟨![2], 0⟩⟩ ⟨1, .M ⟨![3], 1⟩⟩ =
      (DGaussian.dummy, .error .SingularMatrix) ∧
    DGaussian.dummy ≠ ⟨1, .M ⟨![2], 0⟩⟩ := by
  have h0 : (0 : Mat 1 1).det = 0 := by simp [Matrix.det_fin_one]
  constructor
  · simp [DGaussian.mulAssign, Gaussian.toE, M.as_e, invh_singular h0]
  · intro hh
    simp [DGaussian.dummy] at hh

/-- C6 as amended: in-place fusion computes exactly the same result as
fusion when fusion succeeds; on any error the receiver is left holding the
fixed 1-dimensional placeholder, not its original state. -/
theorem C6_mulAssign_matches_mul (a b : DGaussian) :
    DGaussian.mulAssign a b =
      match DGaussian.mul a b with
      | .ok g => (g, .ok ())
      | .error err => (DGaussian.dummy, .error err) := by
  obtain ⟨n, ga⟩ := a
  obtain ⟨m, gb⟩ := b
  cases hea : ga.toE with
  | error err => simp [DGaussian.mulAssign, DGaussian.mul, hea]
  | ok ea =>
    cases heb : gb.toE with
    | error err => simp [DGaussian.mulAssign, DGaussian.mul, hea, heb]
    | ok eb =>
      cases hab : ea.mulAssign eb with
      | error err => simp [DGaussian.mulAssign, DGaussian.mul, hea, heb, hab]
      | ok e2 => simp [DGaussian.mulAssign, DGaussian.mul, hea, heb, hab]

/-- C7 counterexample: a moment form whose matrix dimension disagrees with
its vector's length is constructible, and `size` returns the vector's
length without raising any error. -/
theorem C7_counterexample :
    (MRaw.mk 1 2 ![3] 1).k ≠ (MRaw.mk 1 2 ![3] 1).n ∧
    (MRaw.mk 1 2 ![3] 1).size = 1 :=
  ⟨by decide, rfl⟩

/-- C7 as amended: `size` on either form returns the stored vector's length
unconditionally; no squareness or vector-length consistency check is
performed at construction or at use. -/
theorem C7_size_unchecked :
    (∀ m : MRaw, m.size = m.n) ∧ (∀ e : ERaw, e.size = e.n) :=
  ⟨fun _ => rfl, fun _ => rfl⟩

/-- C8: `PGaussian::size` returns the column count of the projection matrix. -/
theorem C8_pgaussian_size_is_cols {r c : ℕ} (pg : PGaussian r c) :
    pg.size = c :=
  rfl

/-- C9 counterexample: for a 3-dimensional Gaussian projected through a
3-by-2 matrix, `PGaussian::size` returns 2 (the column count), not 3 (the
source Gaussian's dimensionality). -/
theorem C9_counterexample :
    (PGaussian.mk (Matrix.of ![![(1 : R), 0], ![0, 1], ![0, 0]])
        (Gaussian.from_mean ![(1 : R), 0, 0] 1) : PGaussian 3 2).size = 2 ∧
    (2 : ℕ) ≠ 3 :=
  ⟨rfl, by decide⟩

/-- C9 as amended: `PGaussian::size` reports the projection's column count;
the cited test projects a 2-dimensional Gaussian through a 2-by-3 matrix and
asserts `size() = 3`, which is the column count, not the source Gaussian's
dimensionality. -/
theorem C9_test_pg_size_is_three :
    (PGaussian.mk (Matrix.of ![![(1 : R), 0, 0], ![0, 1, 0]])
        (Gaussian.from_mean ![(1 : R), 0] 1) : PGaussian 2 3).size = 3 :=
  rfl

/-- C10: for any projection matrix, of any shape (wider-than-tall included),
reduction succeeds whenever the held Gaussian's active form converts to
natural form; it returns the `E` variant holding the congruence-transformed
parameters, and the result's size is the projection's column count. -/
theorem C10_reduction_unchecked {r c : ℕ} (pg : PGaussian r c) (e : E r)
    (h : pg.gaussian.toE = .ok e) :
    ∃ e2 : E c, pg.reduction = .ok (.E e2) ∧ e2.size = pg.size :=
  ⟨⟨pg.projectionᵀ *ᵥ e.ab, pg.projectionᵀ * e.prec * pg.projection⟩,
   by simp [PGaussian.reduction, h], rfl⟩

/-- Witness for C10 at an upward (2-by-3) projection of the test's
2-dimensional Gaussian. -/
theorem C10_reduction_unchecked_witness :
    ((⟨Matrix.of ![![(1 : R), 0, 1], ![0, 1, 1]],
        Gaussian.from_mean ![(2 : R), 1] 1⟩ : PGaussian 2 3).gaussian.toE =
      .ok ⟨![2, 1], 1⟩) ∧
    (∃ e2 : E 3,
      (⟨Matrix.of ![![(1 : R), 0, 1], ![0, 1, 1]],
          Gaussian.from_mean ![(2 : R), 1] 1⟩ : PGaussian 2 3).reduction =
        .ok (.E e2) ∧
      e2.size =
        (⟨Matrix.of ![![(1 : R), 0, 1], ![0, 1, 1]],
            Gaussian.from_mean ![(2 : R), 1] 1⟩ : PGaussian 2 3).size) :=
  ⟨toE_from_mean_one _, C10_reduction_unchecked _ _ (toE_from_mean_one _)⟩

end DaRs
